import Mathlib

set_option maxRecDepth 100000
set_option maxHeartbeats 1000000

/-!
Verification of mockCGen.py (MockCGen): a shallow embedding of the
header-parsing pipeline (comment removal, brace removal, declaration
matching, validation), the argument projector, the declaration registry
and the two emission passes, together with theorems settling the frozen
claims about it.

The regular expressions of the source are embedded as explicit scanners
that implement exactly the backtracking semantics of the patterns used:
  pattFunc            = ^\s*?(?=\w)(.*?)(\w*?)\s*?\(([^;]*?)\)\s*;   (MULTILINE)
  pattBadParenthesis  = ^[^(]*(?=\))
  pattArg             = (\w+)(\[.*\])?$
  pattArgEllipsis     = \.{3}
  pattArgPFunc        = (\w*)\)\s*?\(
  pattBrace           = (?<!"C" ){[^{}]*}
  pattComment         = (/[*](?:.|[\r\n])*?[*]/)|(//.*)
Loops whose recursion is not structural carry a fuel argument; every
wrapper instantiates the fuel with (length + 1), which is always
sufficient because each recursive call strictly shortens the scanned
list.  Strings are processed as List Char.
-/

/-- Python regex word character for the default (ASCII) \w class. -/
def isWordChar (c : Char) : Bool := c.isAlphanum || c = '_'

/-- Python regex whitespace \s = space, tab, newline, carriage return,
vertical tab, form feed. -/
def isSpaceChar (c : Char) : Bool :=
  c = ' ' || c = '\t' || c = '\n' || c = '\r' || c = '\x0b' || c = '\x0c'

/-- Boolean test that p is a prefix of s. -/
def isPref : List Char → List Char → Bool
  | [], _ => true
  | _ :: _, [] => false
  | c :: p, d :: s => c == d && isPref p s

/-- Boolean substring containment (used for the Python membership operator and
for unanchored literal regex searches such as pattArgEllipsis). -/
def containsSub (p : List Char) : List Char → Bool
  | [] => isPref p []
  | c :: rest => isPref p (c :: rest) || containsSub p rest

/-- Python str.lstrip(' '): remove leading space characters (only ' '). -/
def lstripSp (s : List Char) : List Char := s.dropWhile (fun c => c = ' ')

/-! ### Step 1 of ParseHeader: comment removal (pattComment.sub) -/

/-- Scan for the first occurrence of the two-character close-comment
marker; return the text after it.  Implements the lazy body
(?:.|[\r\n])*? followed by [*]/ of pattComment: the shortest body ending
at the first close marker. -/
def dropToClose : List Char → Option (List Char)
  | [] => none
  | [_] => none
  | c :: d :: rest =>
    if c = '*' ∧ d = '/' then some rest else dropToClose (d :: rest)

/-- One left-to-right pass of pattComment.sub with empty replacement.  A slash-star opening
with no subsequent close marker does not match (alternative 1 fails and
alternative 2 needs '//'), so scanning resumes one character later.  A
'//' comment extends to (excluding) the next newline. -/
def removeCommentsF : Nat → List Char → List Char
  | 0, s => s
  | _ + 1, [] => []
  | _ + 1, [c] => [c]
  | n + 1, c :: d :: rest =>
    if c = '/' ∧ d = '*' then
      match dropToClose rest with
      | some tail => removeCommentsF n tail
      | none => '/' :: removeCommentsF n ('*' :: rest)
    else if c = '/' ∧ d = '/' then
      removeCommentsF n (rest.dropWhile (fun x => x ≠ '\n'))
    else c :: removeCommentsF n (d :: rest)

/-- pattComment.sub with empty replacement — source line 122. -/
def removeCommentsW (s : List Char) : List Char := removeCommentsF (s.length + 1) s

/-! ### Step 2 of ParseHeader: repeated brace removal (pattBrace) -/

/-- The last four characters scanned, most recent last; used for the
negative lookbehind of pattBrace. -/
def pushC : Char × Char × Char × Char → Char → Char × Char × Char × Char
  | (_, b, c, d), x => (b, c, d, x)

/-- Negative lookbehind (?<!"C" ): the brace is exempt exactly when the
four characters immediately before it are quote, C, quote, space. -/
def isCQuoteSp (p : Char × Char × Char × Char) : Bool :=
  p = ('"', 'C', '"', ' ')

/-- Sentinel for positions with fewer than four preceding characters; the
null character never satisfies the lookbehind. -/
def prevInit : Char × Char × Char × Char := ('\x00', '\x00', '\x00', '\x00')

/-- Scan for the closing brace of a candidate match of [^{}]*}: the first
brace character after the opening brace must be a closing one, otherwise
there is no match at this opening brace.  Returns the consumed span and
the rest. -/
def takeToCloseBrace : List Char → Option (List Char × List Char)
  | [] => none
  | c :: rest =>
    if c = '\x7d' then some ([], rest)
    else if c = '\x7b' then none
    else (takeToCloseBrace rest).map (fun pr => (c :: pr.1, pr.2))

/-- One pass of pattBrace.sub with empty replacement, together with the information
whether any match occurred (pattBrace.findall nonempty).  The lookbehind
inspects the original text, so the previous-four-characters window is
threaded through deletions as well. -/
def braceSubF : Nat → Char × Char × Char × Char → List Char → List Char × Bool
  | 0, _, s => (s, false)
  | _ + 1, _, [] => ([], false)
  | n + 1, p, c :: rest =>
    if c = '\x7b' ∧ isCQuoteSp p = false then
      match takeToCloseBrace rest with
      | some (inner, tail) =>
        let p2 := ((c :: inner) ++ ['\x7d']).foldl pushC p
        let r := braceSubF n p2 tail
        (r.1, true)
      | none =>
        let r := braceSubF n (pushC p c) rest
        (c :: r.1, r.2)
    else
      let r := braceSubF n (pushC p c) rest
      (c :: r.1, r.2)

/-- One substitution round over a whole string, with fresh lookbehind
state (re.sub always scans from the start of its input). -/
def braceSubM (s : List Char) : List Char × Bool := braceSubF (s.length + 1) prevInit s

/-- One substitution round started from an arbitrary lookbehind window
(the window holds the four most recently scanned characters of the
current round text); the round over a whole string is braceSubM, whose
window starts at the sentinel. -/
def braceSubP (p : Char × Char × Char × Char) (s : List Char) : List Char × Bool :=
  braceSubF (s.length + 1) p s

/-- The loop at source lines 124-125: while pattBrace.findall(header):
header = pattBrace.sub applied with empty replacement. -/
def braceLoopF : Nat → List Char → List Char
  | 0, h => h
  | n + 1, h =>
    (match braceSubM h with
     | (h2, true) => braceLoopF n h2
     | (_, false) => h)

/-- Brace removal applied until no removable pair remains. -/
def braceLoopW (h : List Char) : List Char := braceLoopF (h.length + 1) h

/-- Steps 1 and 2 of ParseHeader: comments removed, then braces removed
repeatedly. -/
def normalizeText (s : List Char) : List Char := braceLoopW (removeCommentsW s)

/-! ### Step 3 of ParseHeader: the declaration matcher (pattFunc.findall) -/

/-- One raw match of pattFunc: return-type field, function-name field,
argument field, exactly the three capture groups. -/
structure Decl where
  returnField : String
  funcField : String
  argsField : String
deriving DecidableEq, Repr

/-- Complete the tail ([^;]*?)\)\s*; of pattFunc after the opening
parenthesis: group 3 lazily extends (never over a semicolon) to the
first closing parenthesis that is followed by whitespace and a
semicolon; returns group 3 and the text after the semicolon. -/
def findCloseSemi : List Char → Option (List Char × List Char)
  | [] => none
  | ')' :: rest =>
    (match rest.dropWhile isSpaceChar with
     | ';' :: tail => some ([], tail)
     | _ => (findCloseSemi rest).map (fun pr => (')' :: pr.1, pr.2)))
  | ';' :: _ => none
  | c :: rest => (findCloseSemi rest).map (fun pr => (c :: pr.1, pr.2))

/-- The lazy search for (.*?)(\w*?)\s*?\( at a fixed anchor: group 1
extends one character at a time (never over a newline); at each stop the
forced decomposition reads a maximal word run (group 2), a maximal
whitespace run, and requires an opening parenthesis, then the tail must
complete via findCloseSemi, else group 1 grows.  g1rev accumulates group
1 in reverse. -/
def tryDeclFrom : List Char → List Char → Option (Decl × List Char)
  | _, [] => none
  | g1rev, c :: rest =>
    let t := c :: rest
    let w := t.takeWhile isWordChar
    (match (t.drop w.length).dropWhile isSpaceChar with
     | '(' :: after =>
       (match findCloseSemi after with
        | some (g3, tail) =>
          some (⟨String.mk g1rev.reverse, String.mk w, String.mk g3⟩, tail)
        | none =>
          if c = '\n' then none else tryDeclFrom (c :: g1rev) rest)
     | _ =>
       if c = '\n' then none else tryDeclFrom (c :: g1rev) rest)

/-- Attempt a match of pattFunc anchored at a line start: ^\s*? lazily
consumes exactly the leading whitespace run, the lookahead (?=\w)
requires a word character there, then the group search runs. -/
def tryAnchor (s : List Char) : Option (Decl × List Char) :=
  match s.dropWhile isSpaceChar with
  | [] => none
  | c :: rest => if isWordChar c then tryDeclFrom [] (c :: rest) else none

/-- pattFunc.findall: scan the text, attempting a match at every
MULTILINE ^ position (start of text, or a position right after a
newline); after a match, scanning resumes right after its terminating
semicolon. -/
def findAllF : Nat → Bool → List Char → List Decl
  | 0, _, _ => []
  | _ + 1, _, [] => []
  | n + 1, atStart, c :: rest =>
    if atStart then
      match tryAnchor (c :: rest) with
      | some (d, tail) => d :: findAllF n false tail
      | none => findAllF n (c = '\n') rest
    else findAllF n (c = '\n') rest

/-- pattFunc.findall over a whole (normalized) header text. -/
def findAllW (s : List Char) : List Decl := findAllF (s.length + 1) true s

/-! ### Step 4 of ParseHeader: validation and extern stripping -/

/-- pattBadParenthesis.search: the field has a prefix of non-'('
characters followed by ')', i.e. its first parenthesis character, if
any, is a closing one. -/
def badParen : List Char → Bool
  | [] => false
  | c :: rest => if c = ')' then true else if c = '(' then false else badParen rest

/-- The reject condition of ParseHeader steps 4.1 (source lines 132-142):
an empty field after lstrip(' '), a bad parenthesis in the argument or
name field, or the substring "inline" in the return field. -/
def validDrop (d : Decl) : Bool :=
  (lstripSp d.returnField.data).isEmpty || (lstripSp d.funcField.data).isEmpty ||
  (lstripSp d.argsField.data).isEmpty ||
  badParen d.argsField.data || badParen d.funcField.data ||
  containsSub "inline".data d.returnField.data

/-- Python str.replace deleting the pattern: delete every occurrence of the
pattern in a single left-to-right non-overlapping pass. -/
def stripExternF : Nat → List Char → List Char
  | 0, s => s
  | _ + 1, [] => []
  | n + 1, c :: rest =>
    if isPref "extern".data (c :: rest) then
      stripExternF n ((c :: rest).drop 6)
    else c :: stripExternF n rest

/-- returnField.replace removing the word extern — source line 144. -/
def stripExternW (s : List Char) : List Char := stripExternF (s.length + 1) s

/-- String-level extern stripping applied to a stored declaration. -/
def stripExternS (s : String) : String := String.mk (stripExternW s.data)

/-- The validation loop of ParseHeader (source lines 128-146): dropped
matches are skipped, accepted matches are appended in order with the
extern-stripped return field. -/
def parseTriples : List Decl → List Decl
  | [] => []
  | d :: rest =>
    if validDrop d then parseTriples rest
    else ⟨stripExternS d.returnField, d.funcField, d.argsField⟩ :: parseTriples rest

/-- The declaration list ParseHeader computes for one header text:
comment removal, repeated brace removal, matching, validation. -/
def parseHeaderDecls (header : String) : List Decl :=
  parseTriples (findAllW (normalizeText header.data))

/-! ### ParseArgs: the argument projector (source lines 152-185) -/

/-- Python str.split(','): split on every comma; the empty string yields
one empty segment. -/
def splitCommasC : List Char → List (List Char)
  | [] => [[]]
  | c :: rest =>
    if c = ',' then [] :: splitCommasC rest
    else
      match splitCommasC rest with
      | seg :: segs => (c :: seg) :: segs
      | [] => [[c]]

/-- The $ anchor of pattArg matches at the end of the string or just
before one final newline; equivalently, the pattern is matched against
the string with one trailing newline removed. -/
def stripLastNL (s : List Char) : List Char :=
  match s.reverse with
  | '\n' :: r => r.reverse
  | _ => s

/-- The optional (\[.*\])?$ tail of pattArg: an opening bracket, any
characters without a newline, a closing bracket at the very end. -/
def bracketShape (r : List Char) : Bool :=
  r.head? = some '[' && r.getLast? = some ']' && decide (2 ≤ r.length) &&
  !(r.any (fun c => c = '\n'))

/-- re.search of pattArg = (\w+)(\[.*\])?$ (after removing one trailing
newline): the leftmost start from which a nonempty word run is followed
either by the end of the string or by a bracketed tail reaching the end;
the returned group 1 is that word run. -/
def pattArgScanF : Nat → List Char → Option (List Char)
  | 0, _ => none
  | _ + 1, [] => none
  | n + 1, c :: rest =>
    if isWordChar c then
      let w := (c :: rest).takeWhile isWordChar
      let r := (c :: rest).dropWhile isWordChar
      if r.isEmpty || bracketShape r then some w else pattArgScanF n r
    else pattArgScanF n rest

/-- pattArg.search on a segment. -/
def pattArgScanW (s : List Char) : Option (List Char) :=
  pattArgScanF (s.length + 1) (stripLastNL s)

/-- The \)\s*?\( tail of pattArgPFunc: a closing parenthesis, lazy
whitespace, an opening parenthesis. -/
def closeOpen : List Char → Bool
  | ')' :: t =>
    (match t.dropWhile isSpaceChar with
     | '(' :: _ => true
     | _ => false)
  | _ => false

/-- re.search of pattArgPFunc = (\w*)\)\s*?\(: the leftmost start whose
(maximal, possibly empty) word run is followed by ') (' shape; group 1
is that word run. -/
def pfuncScanF : Nat → List Char → Option (List Char)
  | 0, _ => none
  | _ + 1, [] => none
  | n + 1, c :: rest =>
    if isWordChar c then
      let w := (c :: rest).takeWhile isWordChar
      let r := (c :: rest).dropWhile isWordChar
      if closeOpen r then some w else pfuncScanF n r
    else if closeOpen (c :: rest) then some []
    else pfuncScanF n rest

/-- pattArgPFunc.search on a segment. -/
def pfuncScanW (s : List Char) : Option (List Char) := pfuncScanF (s.length + 1) s

/-- The per-segment loop of ParseArgs: an ellipsis anywhere aborts the
whole projection; otherwise the pattArg match is consulted first (its
group 1 is kept unless it is exactly "void"), and only if it fails the
pattArgPFunc match contributes its group 1.  The try/except of the
source is unreachable for these pure string operations. -/
def parseArgsCore : List (List Char) → Option (List (List Char))
  | [] => some []
  | seg :: rest =>
    if containsSub "...".data seg then none
    else
      let contrib : List (List Char) :=
        match pattArgScanW seg with
        | some w => if w = "void".data then [] else [w]
        | none =>
          match pfuncScanW seg with
          | some w => [w]
          | none => []
      match parseArgsCore rest with
      | none => none
      | some l => some (contrib ++ l)

/-- ', '.join of the collected identifiers. -/
def joinComma : List (List Char) → List Char
  | [] => []
  | [x] => x
  | x :: xs => x ++ ", ".data ++ joinComma xs

/-- ParseArgs (source lines 152-185): (None, 0) marks the unsupported
(variadic) outcome, otherwise the joined forwarding string and the
identifier count. -/
def parseArgs (args : String) : Option String × Nat :=
  match parseArgsCore (splitCommasC args.data) with
  | none => (none, 0)
  | some l => (some (String.mk (joinComma l)), l.length)

/-! ### The declaration registry (class attributes fileList / fileDict)

The source keeps fileList and fileDict as class-level attributes of
MockCGen, i.e. mutable state shared by every instance in the process;
__init__ only sets self.weak.  The embedding therefore models the
registry as an explicit process-level Store value threaded through
ParseHeader, while an instance carries only its weak string. -/

/-- The registry: the ordered file-name list and the file-to-declaration
mapping (a Python dict, embedded as an association list whose assignment
overwrites an existing key). -/
structure Store where
  fileList : List String
  fileDict : List (String × List Decl)
deriving DecidableEq, Repr

/-- The state of the registry at process start. -/
def storeEmpty : Store := ⟨[], []⟩

/-- Python dict assignment d[k] = v. -/
def dictInsert : List (String × List Decl) → String → List Decl → List (String × List Decl)
  | [], k, v => [(k, v)]
  | (k2, v2) :: rest, k, v =>
    if k2 = k then (k, v) :: rest else (k2, v2) :: dictInsert rest k v

/-- Python dict lookup d[k]; every name in fileList is a dict key, so
the default branch is never reached on registry states built by
ParseHeader. -/
def dictGet : List (String × List Decl) → String → List Decl
  | [], _ => []
  | (k2, v2) :: rest, k => if k2 = k then v2 else dictGet rest k

/-- A MockCGen instance: __init__ stores only the weak attribute
spelling. -/
structure MockCGenInst where
  weak : String
deriving DecidableEq, Repr

/-- MockCGen(weak): construct an instance. -/
def MockCGen.mk (weak : String) : MockCGenInst := ⟨weak⟩

/-- The constructor as a state transformer on the process-level
registry: __init__ touches no class attribute, so the registry passes
through unchanged. -/
def MockCGen.initS (st : Store) (weak : String) : Store × MockCGenInst :=
  (st, MockCGen.mk weak)

/-- ParseHeader (source lines 108-150): parse the header and, only if at
least one declaration was validated, append the file name and set the
dict entry.  The instance is irrelevant: the registry is class-level. -/
def parseHeaderS (st : Store) (_inst : MockCGenInst) (fileName : String) (header : String) : Store :=
  let funcList := parseHeaderDecls header
  if funcList.isEmpty then st
  else ⟨st.fileList ++ [fileName], dictInsert st.fileDict fileName funcList⟩

/-- A sequence of ParseHeader calls on one instance. -/
def runParse (i : MockCGenInst) : Store → List (String × String) → Store
  | st, [] => st
  | st, (f, h) :: rest => runParse i (parseHeaderS st i f h) rest

/-! ### The emission passes (BuildMockCHeader / BuildMockCSource) -/

/-- Python str.upper() for the ASCII class-name text. -/
def strUpper (s : String) : String := String.mk (s.data.map Char.toUpper)

/-- Sequential file.write calls, as string concatenation over a list. -/
def concatMap (g : α → String) : List α → String
  | [] => ""
  | x :: xs => g x ++ concatMap g xs

/-- The return classification of BuildMockCSource line 322: a return is
emitted iff the return field does not contain the substring "void" or
contains a star. -/
def needsReturn (r : String) : Bool :=
  !(containsSub "void".data r.data) || containsSub "*".data r.data

/-- One pure-virtual member of the interface pass (source lines 228-232). -/
def virtualLine (d : Decl) : String :=
  match (parseArgs d.argsField).1 with
  | none =>
    "    // Not supported: virtual " ++ d.returnField ++ d.funcField ++
      "(" ++ d.argsField ++ ") = 0;\n"
  | some _ =>
    "    virtual " ++ d.returnField ++ d.funcField ++ "(" ++ d.argsField ++ ") = 0;\n"

/-- One MOCK_METHOD line of the optional GMOCK class (source lines 246-252). -/
def mockMethodLine (d : Decl) : String :=
  match parseArgs d.argsField with
  | (none, argsCnt) =>
    "    // Not Supported: MOCK_METHOD" ++ toString argsCnt ++ "(" ++ d.funcField ++
      "," ++ d.returnField ++ "(" ++ d.argsField ++ "));\n"
  | (some _, argsCnt) =>
    "    MOCK_METHOD" ++ toString argsCnt ++ "(" ++ d.funcField ++ "," ++
      d.returnField ++ "(" ++ d.argsField ++ "));\n"

/-- One forwarding function of the source pass (source lines 309-326):
unsupported declarations become comments; supported ones become a WEAK
function whose call string is prefixed with return per needsReturn. -/
def sourceFuncText (className : String) (d : Decl) : String :=
  match (parseArgs d.argsField).1 with
  | none =>
    "// This function declaration is not supported by gMock\n" ++
    "// WEAK " ++ d.returnField ++ d.funcField ++ "(" ++ d.argsField ++ ") \x7b \x7d\n\n"
  | some s =>
    "WEAK " ++ d.returnField ++ d.funcField ++ "(" ++ d.argsField ++ ")\n\x7b\n    " ++
    (if needsReturn d.returnField then "return " else "") ++
    "_px" ++ className ++ "->" ++ d.funcField ++ "(" ++ s ++ ");\n\x7d\n\n"

/-- The 63-slash rule line of the autogenerated-file banner. -/
def slashRule : String := String.mk (List.replicate 63 '/') ++ "\n"

/-- The separator line of the source pass: two slashes and 61 equals. -/
def eqRule : String := "//" ++ String.mk (List.replicate 61 '=') ++ "\n"

/-- The banner written at the top of both generated files. -/
def bannerText : String :=
  slashRule ++
  "//DO NOT MODIFY--This is an autogenerated file--DO NOT MODIFY//\n" ++
  slashRule

/-- BuildMockCHeader (source lines 187-266) as the concatenation of its
file.write calls. -/
def buildMockCHeaderText (st : Store) (_inst : MockCGenInst) (className : String)
    (isGMethodReqd : Bool) : String :=
  concatMap id
    [bannerText,
     "#ifndef __" ++ strUpper className ++ "_H__\n",
     "#define __" ++ strUpper className ++ "_H__\n",
     "\n",
     "#include <gmock/gmock.h>\n#include <gtest/gtest.h>\n#include <stdint.h>\n\n",
     "extern \"C\"\n\x7b\n\n",
     "// Include header files that are mocked\n",
     concatMap (fun h => "#include \"" ++ h ++ "\"\n") st.fileList,
     "\n",
     "// The virtual class\n",
     "class I" ++ className ++ "\n\x7b\npublic:\n",
     "    // Destructor required for gmock\n",
     "    virtual ~I" ++ className ++ "() \x7b \x7d\n",
     concatMap (fun f =>
       "\n    // From " ++ f ++ "\n" ++ concatMap virtualLine (dictGet st.fileDict f))
       st.fileList,
     "\x7d;\n\n",
     (if isGMethodReqd then
       "// The GMOCK class\n" ++
       "class MockI" ++ className ++ " : public I" ++ className ++ "\n\x7b\npublic:\n" ++
       concatMap (fun f =>
         "\n    // From " ++ f ++ "\n" ++ concatMap mockMethodLine (dictGet st.fileDict f))
         st.fileList ++
       "\x7d;\n\n"
     else
       "// Generate the GMOCK methods file " ++ className ++ ".hpp using the following command\n" ++
       "// and be sure that the file is in the search path.\n" ++
       "// googlemock/scripts/generator/gmock_gen.py " ++ className ++ ".h >> " ++
         className ++ ".hpp\n" ++
       "#include \"" ++ className ++ ".hpp\"\n\n"),
     "// This must be called before the \"C\" mock is used\n",
     "void " ++ className ++ "_init(MockI" ++ className ++ " *px" ++ className ++ ");\n\n",
     "\x7d // extern \"C\"\n",
     "#endif // __" ++ strUpper className ++ "_H__\n"]

/-- BuildMockCSource (source lines 268-327) as the concatenation of its
file.write calls; the weak attribute of the invoking instance is spliced
into the WEAK macro definition. -/
def buildMockCSourceText (st : Store) (inst : MockCGenInst) (className : String) : String :=
  concatMap id
    [bannerText,
     "\n#include <stdint.h>\n#include \"etypes.h\"\n#include \"" ++ className ++ ".h\"\n\n",
     "extern \"C\"\n\x7b\nusing namespace ::testing;\n\n",
     eqRule,
     "// Define WEAK to the compiler specific \"weak\" attribute\n",
     "#undef  WEAK\n",
     "#define WEAK    " ++ inst.weak ++ "\n\n",
     "// Define the singleton pointer to the mock implementation\n",
     "static MockI" ++ className ++ " _px" ++ className ++ "Dummy;\n",
     "static MockI" ++ className ++ " *_px" ++ className ++ " = &_px" ++ className ++ "Dummy;\n\n",
     "// This must be called before the \"C\" mock is used\n",
     "void " ++ className ++ "_init(MockI" ++ className ++ " *px" ++ className ++ ")\n",
     "\x7b\n    _px" ++ className ++ " = px" ++ className ++ ";\n\x7d\n",
     eqRule ++ "\n",
     concatMap (fun f =>
       "\n// From " ++ f ++ "\n" ++ concatMap (sourceFuncText className) (dictGet st.fileDict f))
       st.fileList,
     "\x7d // extern \"C\"\n"]


/-! ### Specification-side predicates

These formalize the wording of the claims independently of the Boolean
scanners above; the claim theorems relate the two. -/

/-- The claim-side notion "p occurs as a substring of s". -/
def SubstrPat (p s : List Char) : Prop := ∃ l t, s = l ++ p ++ t

/-- The claim-side notion "s contains a closing parenthesis with no
opening parenthesis anywhere before it in the same field". -/
def BadParenPred (s : List Char) : Prop := ∃ l t, s = l ++ ')' :: t ∧ '(' ∉ l

/-- The claim-side notion "after trimming leading spaces the field is
empty", i.e. the field consists of spaces only. -/
def AllSpacesPred (s : List Char) : Prop := ∀ c ∈ s, c = ' '

instance (s : List Char) : Decidable (AllSpacesPred s) := by
  unfold AllSpacesPred
  infer_instance

/-- The whitespace-separated tokens of a field (for the claims that
speak about a token of the return type).  cur accumulates the current
word in reverse. -/
def wordsAux : List Char → List Char → List (List Char)
  | cur, [] => if cur.isEmpty then [] else [cur.reverse]
  | cur, c :: rest =>
    if isSpaceChar c then
      if cur.isEmpty then wordsAux [] rest else cur.reverse :: wordsAux [] rest
    else wordsAux (c :: cur) rest

/-- The whitespace-separated tokens of a field. -/
def tokensOf (s : List Char) : List (List Char) := wordsAux [] s

instance (p s : List Char) : Decidable (SubstrPat p s) :=
  decidable_of_iff (p <:+: s)
    ⟨fun ⟨l, t, h⟩ => ⟨l, t, h.symm⟩, fun ⟨l, t, h⟩ => ⟨l, t, h.symm⟩⟩

instance (s : List Char) : Decidable (BadParenPred s) :=
  decidable_of_iff (badParen s = true) (by
    induction s with
    | nil =>
      constructor
      · intro h; cases h
      · rintro ⟨l, t, hl, _⟩; exact absurd hl (by simp)
    | cons c rest ih =>
      show (if c = ')' then true else if c = '(' then false else badParen rest) = true ↔ _
      by_cases hc : c = ')'
      · rw [if_pos hc]
        exact iff_of_true rfl ⟨[], rest, by simp [hc], by simp⟩
      · by_cases ho : c = '('
        · rw [if_neg hc, if_pos ho]
          constructor
          · intro h; cases h
          · rintro ⟨l, t, hl, hni⟩
            cases l with
            | nil => exact absurd (List.head_eq_of_cons_eq hl) hc
            | cons a l2 =>
              have ha : c = a := List.head_eq_of_cons_eq hl
              exact absurd (by simp [← ha, ho] : '(' ∈ a :: l2) hni
        · rw [if_neg hc, if_neg ho, ih]
          constructor
          · rintro ⟨l, t, hl, hni⟩
            refine ⟨c :: l, t, by simp [hl], ?_⟩
            simp only [List.mem_cons, not_or]
            exact ⟨fun hx => ho hx.symm, hni⟩
          · rintro ⟨l, t, hl, hni⟩
            cases l with
            | nil => exact absurd (List.head_eq_of_cons_eq hl) hc
            | cons a l2 =>
              refine ⟨l2, t, List.tail_eq_of_cons_eq hl, fun hx => hni ?_⟩
              exact List.mem_cons_of_mem a hx)

/-- The drop condition of claim C1 as amended: an all-spaces field, a
bad parenthesis in the name or argument field, or the substring "inline"
in the return field. -/
def specDropCond (d : Decl) : Prop :=
  AllSpacesPred d.returnField.data ∨ AllSpacesPred d.funcField.data ∨
  AllSpacesPred d.argsField.data ∨
  BadParenPred d.funcField.data ∨ BadParenPred d.argsField.data ∨
  SubstrPat "inline".data d.returnField.data

instance (d : Decl) : Decidable (specDropCond d) := by
  unfold specDropCond AllSpacesPred
  infer_instance

/-! ### Bridging lemmas: Boolean scanners versus claim-side predicates -/

theorem isPref_iff (p : List Char) : ∀ s, isPref p s = true ↔ ∃ t, s = p ++ t := by
  induction p with
  | nil => intro s; simp [isPref]
  | cons c q ih =>
    intro s
    cases s with
    | nil =>
      simp only [isPref]
      constructor
      · intro h; cases h
      · rintro ⟨t, ht⟩; exact absurd ht (by simp)
    | cons d s2 =>
      simp only [isPref, Bool.and_eq_true, beq_iff_eq, ih, List.cons_append,
        List.cons.injEq]
      constructor
      · rintro ⟨hcd, t, ht⟩; exact ⟨t, hcd.symm, ht⟩
      · rintro ⟨t, hdc, ht⟩; exact ⟨hdc.symm, t, ht⟩

theorem containsSub_iff (p : List Char) : ∀ s, containsSub p s = true ↔ SubstrPat p s := by
  intro s
  induction s with
  | nil =>
    simp only [containsSub, isPref_iff, SubstrPat]
    constructor
    · rintro ⟨t, ht⟩
      exact ⟨[], t, by simpa using ht⟩
    · rintro ⟨l, t, hl⟩
      have h0 : l = [] := by
        cases l with
        | nil => rfl
        | cons a b => exact absurd hl (by simp)
      subst h0
      exact ⟨t, by simpa using hl⟩
  | cons c rest ih =>
    simp only [containsSub, Bool.or_eq_true, isPref_iff, ih, SubstrPat]
    constructor
    · rintro (⟨t, ht⟩ | ⟨l, t, hl⟩)
      · exact ⟨[], t, by simpa using ht⟩
      · exact ⟨c :: l, t, by simp [hl]⟩
    · rintro ⟨l, t, hl⟩
      cases l with
      | nil => exact Or.inl ⟨t, by simpa using hl⟩
      | cons a l2 =>
        exact Or.inr ⟨l2, t, by simpa using List.tail_eq_of_cons_eq hl⟩

theorem badParen_iff (s : List Char) : badParen s = true ↔ BadParenPred s := by
  induction s with
  | nil =>
    constructor
    · intro h; cases h
    · rintro ⟨l, t, hl, _⟩; exact absurd hl (by simp)
  | cons c rest ih =>
    show (if c = ')' then true else if c = '(' then false else badParen rest) = true ↔ _
    by_cases hc : c = ')'
    · rw [if_pos hc]
      exact iff_of_true rfl ⟨[], rest, by simp [hc], by simp⟩
    · by_cases ho : c = '('
      · rw [if_neg hc, if_pos ho]
        constructor
        · intro h; cases h
        · rintro ⟨l, t, hl, hni⟩
          cases l with
          | nil => exact absurd (List.head_eq_of_cons_eq hl) hc
          | cons a l2 =>
            have ha : c = a := List.head_eq_of_cons_eq hl
            exact absurd (by simp [← ha, ho] : '(' ∈ a :: l2) hni
      · rw [if_neg hc, if_neg ho, ih]
        constructor
        · rintro ⟨l, t, hl, hni⟩
          refine ⟨c :: l, t, by simp [hl], ?_⟩
          simp only [List.mem_cons, not_or]
          exact ⟨fun hx => ho hx.symm, hni⟩
        · rintro ⟨l, t, hl, hni⟩
          cases l with
          | nil => exact absurd (List.head_eq_of_cons_eq hl) hc
          | cons a l2 =>
            exact ⟨l2, t, List.tail_eq_of_cons_eq hl,
              fun hx => hni (List.mem_cons_of_mem a hx)⟩

theorem lstripEmpty_iff (s : List Char) : (lstripSp s).isEmpty = true ↔ AllSpacesPred s := by
  simp [lstripSp, AllSpacesPred, List.isEmpty_iff, List.dropWhile_eq_nil_iff]

theorem validDrop_iff (d : Decl) : validDrop d = true ↔ specDropCond d := by
  simp only [validDrop, Bool.or_eq_true, lstripEmpty_iff, badParen_iff,
    containsSub_iff, specDropCond]
  tauto

theorem needsReturn_iff (r : String) :
    needsReturn r = true ↔
      (¬ SubstrPat "void".data r.data ∨ SubstrPat "*".data r.data) := by
  simp only [needsReturn, Bool.or_eq_true, Bool.not_eq_true', ← Bool.not_eq_true,
    containsSub_iff]

theorem parseTriples_eq_filterMap (ds : List Decl) :
    parseTriples ds =
      ds.filterMap (fun d =>
        if specDropCond d then none
        else some ⟨stripExternS d.returnField, d.funcField, d.argsField⟩) := by
  induction ds with
  | nil => rfl
  | cons d rest ih =>
    show (if validDrop d then parseTriples rest else _ :: parseTriples rest) = _
    rw [List.filterMap_cons]
    by_cases h : specDropCond d
    · have hv : validDrop d = true := (validDrop_iff d).mpr h
      simp [hv, h, ih]
    · have hv : validDrop d = false := by
        rw [← Bool.not_eq_true]
        simpa [validDrop_iff] using h
      simp [hv, h, ih]

/-! ### Claim C1 -/

/-- C1 (as stated, refuted): the claim asserts the validator drops a
matcher triple only when the return field contains the TOKEN "inline"
(besides the empty-field and parenthesis conditions).  For the header
"inlined int foo(int a);" the matcher produces the triple with return
field "inlined int ", whose token list does not contain "inline" and
which satisfies none of the other drop conditions, yet ParseHeader drops
it (the code tests substring containment). -/
theorem c1_token_cex :
    findAllW (normalizeText "inlined int foo(int a);\n".data) =
      [⟨"inlined int ", "foo", "int a"⟩] ∧
    parseHeaderDecls "inlined int foo(int a);\n" = [] ∧
    "inline".data ∉ tokensOf "inlined int ".data ∧
    ¬ AllSpacesPred "inlined int ".data ∧ ¬ AllSpacesPred "foo".data ∧
    ¬ AllSpacesPred "int a".data ∧
    ¬ BadParenPred "foo".data ∧ ¬ BadParenPred "int a".data := by
  refine ⟨by decide, by decide, by decide, by decide, by decide, by decide,
    by decide, by decide⟩

/-- C1 (amended): for every raw triple produced by the declaration
matcher, ParseHeader drops the triple if and only if: after trimming
leading spaces, returnType, name or rawArgs is empty; name or rawArgs
contains a closing parenthesis with no opening parenthesis anywhere
before it in the same field; or returnType contains the SUBSTRING
"inline" (not: the token "inline").  Every triple not dropped is
appended in matcher order, with its return field rendered by deleting
every occurrence of the substring "extern". -/
theorem c1_validator_filter (header : String) :
    parseHeaderDecls header =
      (findAllW (normalizeText header.data)).filterMap (fun d =>
        if specDropCond d then none
        else some ⟨stripExternS d.returnField, d.funcField, d.argsField⟩) :=
  parseTriples_eq_filterMap _

/-! ### Claim C2 -/

/-- C2 (as stated, refuted): the claim asserts the forwarding body is
prefixed with return exactly when the return type is not literally void,
and that types merely containing the substring "void" are not
misclassified.  The header "avoid_t foo(int a);" is accepted, its return
type is not literally void, yet the generated body carries no return:
source line 322 tests substring containment of "void" plus a star check. -/
theorem c2_void_substring_cex :
    parseHeaderDecls "avoid_t foo(int a);\n" = [⟨"avoid_t ", "foo", "int a"⟩] ∧
    lstripSp "avoid_t ".data ≠ "void".data ∧ ("avoid_t " : String) ≠ "void" ∧
    sourceFuncText "Mock" ⟨"avoid_t ", "foo", "int a"⟩ =
      "WEAK avoid_t foo(int a)\n\x7b\n    _pxMock->foo(a);\n\x7d\n\n" ∧
    containsSub "return".data
      (sourceFuncText "Mock" ⟨"avoid_t ", "foo", "int a"⟩).data = false := by
  refine ⟨by decide, by decide, by decide, by decide, by decide⟩

/-- C2 (amended): for every supported declaration the generated body is
prefixed with "return" exactly when the stored return field does not
contain the substring "void" or contains a star; hence void foo(int a)
is non-returning and void *foo(int a) is returning, but a star-free
return type containing "void" as a substring (such as avoid_t) is also
classified as non-returning. -/
theorem c2_return_classification (cn : String) (d : Decl) (s : String) (k : Nat)
    (h : parseArgs d.argsField = (some s, k)) :
    sourceFuncText cn d =
      "WEAK " ++ d.returnField ++ d.funcField ++ "(" ++ d.argsField ++ ")\n\x7b\n    " ++
      (if ¬ SubstrPat "void".data d.returnField.data ∨
          SubstrPat "*".data d.returnField.data
       then "return " else "") ++
      "_px" ++ cn ++ "->" ++ d.funcField ++ "(" ++ s ++ ");\n\x7d\n\n" := by
  have h1 : (parseArgs d.argsField).1 = some s := by rw [h]
  unfold sourceFuncText
  rw [h1]
  by_cases hv : needsReturn d.returnField
  · rw [if_pos hv, if_pos ((needsReturn_iff d.returnField).mp hv)]
  · have : ¬ (¬ SubstrPat "void".data d.returnField.data ∨
        SubstrPat "*".data d.returnField.data) := fun hx =>
      hv ((needsReturn_iff d.returnField).mpr hx)
    rw [if_neg (by simpa using hv), if_neg this]

/-- Witness for C2 (amended): the two spec examples, void foo(int a)
without return and void *foo(int a) with return. -/
theorem c2_return_classification_witness :
    sourceFuncText "Mock" ⟨"void ", "foo", "int a"⟩ =
      "WEAK " ++ "void " ++ "foo" ++ "(" ++ "int a" ++ ")\n\x7b\n    " ++
      (if ¬ SubstrPat "void".data "void ".data ∨ SubstrPat "*".data "void ".data
       then "return " else "") ++
      "_px" ++ "Mock" ++ "->" ++ "foo" ++ "(" ++ "a" ++ ");\n\x7d\n\n" ∧
    sourceFuncText "Mock" ⟨"void *", "foo", "int a"⟩ =
      "WEAK " ++ "void *" ++ "foo" ++ "(" ++ "int a" ++ ")\n\x7b\n    " ++
      (if ¬ SubstrPat "void".data "void *".data ∨ SubstrPat "*".data "void *".data
       then "return " else "") ++
      "_px" ++ "Mock" ++ "->" ++ "foo" ++ "(" ++ "a" ++ ");\n\x7d\n\n" :=
  ⟨c2_return_classification "Mock" ⟨"void ", "foo", "int a"⟩ "a" 1 (by decide),
   c2_return_classification "Mock" ⟨"void *", "foo", "int a"⟩ "a" 1 (by decide)⟩

/-! ### Claim C3 -/

theorem parseArgsCore_none (segs : List (List Char)) (seg : List Char)
    (hmem : seg ∈ segs) (hdots : containsSub "...".data seg = true) :
    parseArgsCore segs = none := by
  induction segs with
  | nil => cases hmem
  | cons s rest ih =>
    show (if containsSub "...".data s then none else _) = none
    by_cases hc : containsSub "...".data s = true
    · rw [if_pos hc]
    · rw [if_neg hc]
      have hmem2 : seg ∈ rest := by
        rcases List.mem_cons.mp hmem with h | h
        · exact absurd (h ▸ hdots) hc
        · exact h
      rw [ih hmem2]

/-- C3: for every declaration whose rawArgs, split on commas, has a
segment containing the ellipsis token, the projection returns the
unsupported marker (None, 0); the interface pass then emits a
commented-out member instead of a live pure-virtual one, and the
forwarding pass emits a commented-out line instead of a callable
function. -/
theorem c3_variadic_unsupported (cn : String) (d : Decl) (seg : List Char)
    (hmem : seg ∈ splitCommasC d.argsField.data)
    (hdots : containsSub "...".data seg = true) :
    parseArgs d.argsField = (none, 0) ∧
    virtualLine d =
      "    // Not supported: virtual " ++ d.returnField ++ d.funcField ++
        "(" ++ d.argsField ++ ") = 0;\n" ∧
    sourceFuncText cn d =
      "// This function declaration is not supported by gMock\n" ++
      "// WEAK " ++ d.returnField ++ d.funcField ++ "(" ++ d.argsField ++ ") \x7b \x7d\n\n" := by
  have hpa : parseArgs d.argsField = (none, 0) := by
    unfold parseArgs
    rw [parseArgsCore_none _ _ hmem hdots]
  have h1 : (parseArgs d.argsField).1 = none := by rw [hpa]
  exact ⟨hpa, by unfold virtualLine; rw [h1], by unfold sourceFuncText; rw [h1]⟩

/-- Witness for C3: int printf(const char *fmt, ...). -/
theorem c3_variadic_unsupported_witness :
    parseArgs "const char *fmt, ..." = (none, 0) ∧
    virtualLine ⟨"int ", "printf", "const char *fmt, ..."⟩ =
      "    // Not supported: virtual " ++ "int " ++ "printf" ++
        "(" ++ "const char *fmt, ..." ++ ") = 0;\n" ∧
    sourceFuncText "Mock" ⟨"int ", "printf", "const char *fmt, ..."⟩ =
      "// This function declaration is not supported by gMock\n" ++
      "// WEAK " ++ "int " ++ "printf" ++ "(" ++ "const char *fmt, ..." ++ ") \x7b \x7d\n\n" :=
  c3_variadic_unsupported "Mock" ⟨"int ", "printf", "const char *fmt, ..."⟩
    " ...".data (by decide) (by decide)

/-! ### Claim C4 -/

/-- C4 (as stated, refuted): the claim asserts every brace span
immediately preceded by the token sequence extern "C" survives
normalization, and that brace spans of other named blocks never yield
matches.  The lookbehind of pattBrace only checks that the four
characters before the opening brace are quote, C, quote, space: with no
space before the brace, the extern "C" block is deleted and its
declaration is not matched, although the same declaration alone is. -/
theorem c4_extern_c_cex :
    parseHeaderDecls "extern \"C\"\x7bint f(int a);\x7d" = [] ∧
    parseHeaderDecls "int f(int a);" = [⟨"int ", "f", "int a"⟩] := by
  refine ⟨by decide, by decide⟩

/-! ### Claim C5 -/

theorem containsSub_cons_false {p : List Char} {c : Char} {l : List Char}
    (h : containsSub p (c :: l) = false) :
    isPref p (c :: l) = false ∧ containsSub p l = false := by
  simpa only [containsSub, Bool.or_eq_false_iff] using h

theorem dropToClose_none : ∀ {t : List Char},
    containsSub "*/".data t = false → dropToClose t = none := by
  intro t
  induction t with
  | nil => intro _; rfl
  | cons c rest ih =>
    intro h
    cases rest with
    | nil => rfl
    | cons d rest2 =>
      show (if c = '*' ∧ d = '/' then some rest2 else dropToClose (d :: rest2)) = none
      rw [if_neg ?_]
      · exact ih (containsSub_cons_false h).2
      · rintro ⟨hc, hd⟩
        subst hc; subst hd
        have := (containsSub_cons_false h).1
        simp [isPref] at this

theorem removeCommentsF_fix : ∀ (n : Nat) (s : List Char), s.length < n →
    containsSub "*/".data s = false → containsSub "//".data s = false →
    removeCommentsF n s = s := by
  intro n
  induction n with
  | zero => intro s h _ _; exact absurd h (Nat.not_lt_zero _)
  | succ n ih =>
    intro s hlen hstar hslash
    match s with
    | [] => rfl
    | [c] => rfl
    | c :: d :: rest =>
      show (if c = '/' ∧ d = '*' then _ else if c = '/' ∧ d = '/' then _ else _) = _
      by_cases h1 : c = '/' ∧ d = '*'
      · obtain ⟨hc, hd⟩ := h1
        subst hc; subst hd
        rw [if_pos ⟨rfl, rfl⟩,
          dropToClose_none (containsSub_cons_false (containsSub_cons_false hstar).2).2]
        show '/' :: removeCommentsF n ('*' :: rest) = _
        rw [ih ('*' :: rest) (by simp only [List.length_cons] at hlen ⊢; omega)
          (containsSub_cons_false hstar).2 (containsSub_cons_false hslash).2]
      · by_cases h2 : c = '/' ∧ d = '/'
        · exfalso
          obtain ⟨hc, hd⟩ := h2
          subst hc; subst hd
          have := (containsSub_cons_false hslash).1
          simp [isPref] at this
        · rw [if_neg h1, if_neg h2,
            ih (d :: rest) (by simp only [List.length_cons] at hlen ⊢; omega)
              (containsSub_cons_false hstar).2 (containsSub_cons_false hslash).2]

/-- C5 (as stated, refuted): the claim asserts an unterminated block
comment is deleted to the end of the input so that no later text is
matched.  In fact pattComment requires a closing marker, so the
unterminated span is left in place and the declaration after it IS
matched and registered. -/
theorem c5_unterminated_cex :
    removeCommentsW "/* x\nint foo(int a);\n".data = "/* x\nint foo(int a);\n".data ∧
    parseHeaderDecls "/* x\nint foo(int a);\n" = [⟨"int ", "foo", "int a"⟩] := by
  refine ⟨by decide, by decide⟩

/-- C5 (amended): an unterminated block comment is not matched by the
comment pattern at all: on any text containing no close-comment marker
and no line-comment marker, comment removal is the identity (so text
after the opening marker is still scanned for declarations); scanning is
bounded since removal is a total function. -/
theorem c5_unterminated_amended (s : List Char)
    (hstar : containsSub "*/".data s = false)
    (hslash : containsSub "//".data s = false) :
    removeCommentsW s = s :=
  removeCommentsF_fix (s.length + 1) s (Nat.lt_succ_self _) hstar hslash

/-- Witness for C5 (amended): a concrete unterminated comment. -/
theorem c5_unterminated_amended_witness :
    containsSub "*/".data "/* x\nint q(int a);".data = false ∧
    removeCommentsW "/* x\nint q(int a);".data = "/* x\nint q(int a);".data :=
  ⟨by decide, c5_unterminated_amended "/* x\nint q(int a);".data (by decide) (by decide)⟩

/-! ### Claim C6 -/

theorem splitCommasC_no_comma : ∀ (s : List Char), ',' ∉ s → splitCommasC s = [s] := by
  intro s
  induction s with
  | nil => intro _; rfl
  | cons c rest ih =>
    intro h
    show (if c = ',' then _ else _) = _
    rw [if_neg (fun hc => h (by simp [hc])),
      ih (fun hm => h (List.mem_cons_of_mem c hm))]

/-- C6 (as stated, refuted): the claim asserts the projector tests the
function-pointer pattern first and extracts its name when it matches.
On the single-segment rawArgs "void (*cb)(int a) x" the function-pointer
pattern matches with name cb, but ParseArgs forwards "x": the code
consults pattArg before pattArgPFunc. -/
theorem c6_order_cex :
    pfuncScanW "void (*cb)(int a) x".data = some "cb".data ∧
    pattArgScanW "void (*cb)(int a) x".data = some "x".data ∧
    parseArgs "void (*cb)(int a) x" = (some "x", 1) ∧ ("x" : String) ≠ "cb" := by
  refine ⟨by decide, by decide, by decide, by decide⟩

/-- C6 (amended): for every non-variadic comma-free segment, the
projector first consults the trailing-identifier pattern pattArg (whose
optional array suffix is recognized but only the identifier is
forwarded, and an identifier equal to void is dropped); only when that
pattern fails does the function-pointer pattern pattArgPFunc contribute
its name; when both fail the segment contributes nothing. -/
theorem c6_pattern_priority (seg : String)
    (hdots : containsSub "...".data seg.data = false)
    (hcomma : ',' ∉ seg.data) :
    (∀ w : List Char, pattArgScanW seg.data = some w → w ≠ "void".data →
       parseArgs seg = (some (String.mk w), 1)) ∧
    (pattArgScanW seg.data = some "void".data → parseArgs seg = (some "", 0)) ∧
    (∀ w : List Char, pattArgScanW seg.data = none → pfuncScanW seg.data = some w →
       parseArgs seg = (some (String.mk w), 1)) ∧
    (pattArgScanW seg.data = none → pfuncScanW seg.data = none →
       parseArgs seg = (some "", 0)) := by
  have hs : splitCommasC seg.data = [seg.data] := splitCommasC_no_comma _ hcomma
  refine ⟨?_, ?_, ?_, ?_⟩
  · intro w hw hv
    unfold parseArgs
    rw [hs, show parseArgsCore [seg.data] = some [w] from by
      simp [parseArgsCore, hdots, hw, hv]]
    rfl
  · intro hw
    unfold parseArgs
    rw [hs, show parseArgsCore [seg.data] = some [] from by
      simp [parseArgsCore, hdots, hw]]
    rfl
  · intro w hw hp
    unfold parseArgs
    rw [hs, show parseArgsCore [seg.data] = some [w] from by
      simp [parseArgsCore, hdots, hw, hp]]
    rfl
  · intro hw hp
    unfold parseArgs
    rw [hs, show parseArgsCore [seg.data] = some [] from by
      simp [parseArgsCore, hdots, hw, hp]]
    rfl

/-- Witness for C6 (amended): the identifier pattern wins on
"void (*cb)(int a) x"; the function-pointer pattern applies on
"void (*fooCB)(bool bBar)" only because the identifier pattern fails. -/
theorem c6_pattern_priority_witness :
    parseArgs "void (*cb)(int a) x" = (some (String.mk "x".data), 1) ∧
    parseArgs "void (*fooCB)(bool bBar)" = (some (String.mk "fooCB".data), 1) :=
  ⟨(c6_pattern_priority "void (*cb)(int a) x" (by decide) (by decide)).1
      "x".data (by decide) (by decide),
   ((c6_pattern_priority "void (*fooCB)(bool bBar)" (by decide) (by decide)).2.2.1)
      "fooCB".data (by decide) (by decide)⟩

/-! ### Claim C8 -/

theorem stripExternF_fix : ∀ (n : Nat) (s : List Char), s.length < n →
    containsSub "extern".data s = false → stripExternF n s = s := by
  intro n
  induction n with
  | zero => intro s h _; exact absurd h (Nat.not_lt_zero _)
  | succ n ih =>
    intro s hlen hext
    match s with
    | [] => rfl
    | c :: rest =>
      show (if isPref "extern".data (c :: rest) then _ else c :: stripExternF n rest) = _
      rw [if_neg (by rw [(containsSub_cons_false hext).1]; exact Bool.false_ne_true),
        ih rest (by simp only [List.length_cons] at hlen; omega)
          (containsSub_cons_false hext).2]

/-- C8 (as stated, refuted): the claim asserts that exactly the
storage-class token extern is stripped and every other part of the
return type survives untouched.  For extern-free "externalType" the code
mangles the token to "alType": line 144 deletes every occurrence of the
SUBSTRING "extern". -/
theorem c8_extern_token_cex :
    parseHeaderDecls "externalType foo(int a);\n" = [⟨"alType ", "foo", "int a"⟩] ∧
    "inline".data ∉ tokensOf "externalType ".data ∧
    ("alType " : String) ≠ "externalType " := by
  refine ⟨by decide, by decide, by decide⟩

/-- C8 (amended): acceptance renders the return field by deleting every
occurrence of the substring "extern" in one left-to-right pass.  A
return field without that substring survives untouched (e.g. the
qualifiers static and const); extern int bar(int a) is stored without
the word extern; but a token containing "extern" as a proper substring
is mangled, and overlapping occurrences can leave "extern" in the
result. -/
theorem c8_extern_strip_amended :
    (∀ r : List Char, containsSub "extern".data r = false → stripExternW r = r) ∧
    parseHeaderDecls "static const int foo(int a);\n" =
      [⟨"static const int ", "foo", "int a"⟩] ∧
    parseHeaderDecls "extern int bar(int a);\n" = [⟨" int ", "bar", "int a"⟩] ∧
    stripExternW "extexternern int ".data = "extern int ".data := by
  refine ⟨fun r h => stripExternF_fix (r.length + 1) r (Nat.lt_succ_self _) h,
    by decide, by decide, by decide⟩

/-- Witness for C8 (amended): the stripping pass leaves a concrete
extern-free return field untouched. -/
theorem c8_extern_strip_amended_witness :
    containsSub "extern".data "static int ".data = false ∧
    stripExternW "static int ".data = "static int ".data :=
  ⟨by decide, c8_extern_strip_amended.1 "static int ".data (by decide)⟩

/-! ### Claim C7 -/

theorem isEmpty_false_iff {α : Type} (l : List α) : l.isEmpty = false ↔ l ≠ [] := by
  cases l <;> simp

theorem runParse_fileList (i : MockCGenInst) :
    ∀ (inputs : List (String × String)) (st : Store),
    (runParse i st inputs).fileList =
      st.fileList ++
        (inputs.filter (fun p => !(parseHeaderDecls p.2).isEmpty)).map Prod.fst := by
  intro inputs
  induction inputs with
  | nil => intro st; simp [runParse]
  | cons p rest ih =>
    intro st
    obtain ⟨f, h⟩ := p
    show (runParse i (parseHeaderS st i f h) rest).fileList = _
    rw [ih]
    by_cases he : (parseHeaderDecls h).isEmpty = true
    · simp [parseHeaderS, he, List.filter_cons]
    · simp only [Bool.not_eq_true] at he
      simp [parseHeaderS, he, List.filter_cons, List.append_assoc]

/-- C7: after a sequence of ParseHeader calls with pairwise-distinct
file names starting from the empty registry, the ordered file-name
sequence is exactly the names of the calls that produced at least one
validated declaration (in call order), so a name appears iff its call
produced one; and a call whose header yields zero validated declarations
leaves the registry (file list and mapping) completely unchanged. -/
theorem c7_registry (i : MockCGenInst) (inputs : List (String × String))
    (_hdist : inputs.Pairwise (fun p q => p.1 ≠ q.1)) :
    (runParse i storeEmpty inputs).fileList =
      (inputs.filter (fun p => !(parseHeaderDecls p.2).isEmpty)).map Prod.fst ∧
    (∀ f : String, f ∈ (runParse i storeEmpty inputs).fileList ↔
      ∃ h, (f, h) ∈ inputs ∧ parseHeaderDecls h ≠ []) ∧
    (∀ (st : Store) (j : MockCGenInst) (f h : String),
      parseHeaderDecls h = [] → parseHeaderS st j f h = st) := by
  refine ⟨?_, ?_, ?_⟩
  · rw [runParse_fileList]
    rfl
  · intro f
    rw [runParse_fileList]
    show f ∈ [] ++ _ ↔ _
    simp only [List.nil_append, List.mem_map, List.mem_filter, Bool.not_eq_true',
      isEmpty_false_iff, Prod.exists]
    constructor
    · rintro ⟨f2, h2, ⟨hm, hne⟩, hf⟩
      subst hf
      exact ⟨h2, hm, hne⟩
    · rintro ⟨h2, hm, hne⟩
      exact ⟨f, h2, ⟨hm, hne⟩, rfl⟩
  · intro st j f h hz
    simp [parseHeaderS, hz]

/-- Witness for C7: parsing a.h then b.h then a.h-with-zero-matches
yields the file sequence [a.h, b.h] and leaves the registry unchanged on
the zero-match call. -/
theorem c7_registry_witness :
    (runParse (MockCGen.mk "w") storeEmpty
        [("a.h", "int f(int a);\n"), ("b.h", "int g(int a);\n")]).fileList =
      ["a.h", "b.h"] ∧
    parseHeaderS (runParse (MockCGen.mk "w") storeEmpty
        [("a.h", "int f(int a);\n"), ("b.h", "int g(int a);\n")])
        (MockCGen.mk "w") "a.h" "" =
      runParse (MockCGen.mk "w") storeEmpty
        [("a.h", "int f(int a);\n"), ("b.h", "int g(int a);\n")] := by
  have hc := c7_registry (MockCGen.mk "w")
    [("a.h", "int f(int a);\n"), ("b.h", "int g(int a);\n")] (by decide)
  refine ⟨?_, hc.2.2 _ _ "a.h" "" (by decide)⟩
  rw [hc.1]
  decide

/-! ### Claim C9 -/

theorem takeToCloseBrace_length : ∀ (t inner tail : List Char),
    takeToCloseBrace t = some (inner, tail) →
    inner.length + 1 + tail.length = t.length := by
  intro t
  induction t with
  | nil => intro inner tail h; cases h
  | cons c rest ih =>
    intro inner tail h
    unfold takeToCloseBrace at h
    by_cases h1 : c = '\x7d'
    · rw [if_pos h1] at h
      simp only [Option.some.injEq, Prod.mk.injEq] at h
      obtain ⟨hi, ht⟩ := h
      subst hi; subst ht
      simp only [List.length_nil, List.length_cons]
      omega
    · rw [if_neg h1] at h
      by_cases h2 : c = '\x7b'
      · rw [if_pos h2] at h; cases h
      · rw [if_neg h2] at h
        rcases hm : takeToCloseBrace rest with _ | ⟨i2, t2⟩
        · rw [hm] at h; cases h
        · rw [hm] at h
          simp only [Option.map_some', Option.some.injEq, Prod.mk.injEq] at h
          obtain ⟨hi, ht⟩ := h
          subst ht
          have := ih i2 t2 hm
          simp only [← hi, List.length_cons]
          omega

theorem braceSubF_length : ∀ (n : Nat) (p : Char × Char × Char × Char) (s : List Char),
    s.length < n →
    (braceSubF n p s).1.length ≤ s.length ∧
    ((braceSubF n p s).2 = true → (braceSubF n p s).1.length + 2 ≤ s.length) := by
  intro n
  induction n with
  | zero => intro p s h; exact absurd h (Nat.not_lt_zero _)
  | succ n ih =>
    intro p s hlen
    match s with
    | [] => refine ⟨by simp [braceSubF], by simp [braceSubF]⟩
    | c :: rest =>
      have hr : rest.length < n := by simp only [List.length_cons] at hlen; omega
      by_cases hb : c = '\x7b' ∧ isCQuoteSp p = false
      · rcases hm : takeToCloseBrace rest with _ | ⟨inner, tail⟩
        · have hv : braceSubF (n + 1) p (c :: rest) =
              (c :: (braceSubF n (pushC p c) rest).1, (braceSubF n (pushC p c) rest).2) := by
            simp [braceSubF, hb, hm]
          rw [hv]
          obtain ⟨ha, hb2⟩ := ih (pushC p c) rest hr
          refine ⟨by simp only [List.length_cons]; omega, fun ht => ?_⟩
          have := hb2 ht
          simp only [List.length_cons]
          omega
        · have hv : braceSubF (n + 1) p (c :: rest) =
              ((braceSubF n (((c :: inner) ++ ['\x7d']).foldl pushC p) tail).1, true) := by
            simp [braceSubF, hb, hm]
          have hlen2 := takeToCloseBrace_length rest inner tail hm
          have htail : tail.length < n := by omega
          obtain ⟨ha, _⟩ := ih (((c :: inner) ++ ['\x7d']).foldl pushC p) tail htail
          rw [hv]
          refine ⟨by simp only [List.length_cons]; omega,
            fun _ => by simp only [List.length_cons]; omega⟩
      · have hv : braceSubF (n + 1) p (c :: rest) =
            (c :: (braceSubF n (pushC p c) rest).1, (braceSubF n (pushC p c) rest).2) := by
          simp [braceSubF, hb]
        rw [hv]
        obtain ⟨ha, hb2⟩ := ih (pushC p c) rest hr
        refine ⟨by simp only [List.length_cons]; omega, fun ht => ?_⟩
        have := hb2 ht
        simp only [List.length_cons]
        omega

theorem braceSubM_props (s : List Char) :
    (braceSubM s).1.length ≤ s.length ∧
    ((braceSubM s).2 = true → (braceSubM s).1.length + 2 ≤ s.length) :=
  braceSubF_length (s.length + 1) prevInit s (Nat.lt_succ_self _)

theorem braceLoopF_fix : ∀ (n : Nat) (h : List Char), h.length < n →
    (braceSubM (braceLoopF n h)).2 = false := by
  intro n
  induction n with
  | zero => intro h hl; exact absurd hl (Nat.not_lt_zero _)
  | succ n ih =>
    intro h hl
    show (braceSubM (match braceSubM h with
      | (h2, true) => braceLoopF n h2
      | (_, false) => h)).2 = false
    rcases hm : braceSubM h with ⟨h2, b⟩
    cases b with
    | false =>
      show (braceSubM h).2 = false
      rw [hm]
    | true =>
      show (braceSubM (braceLoopF n h2)).2 = false
      have hsh : h2.length + 2 ≤ h.length := by
        have := (braceSubM_props h).2 (by rw [hm])
        rw [hm] at this
        exact this
      exact ih h2 (by omega)

/-- C9: the repeated brace-removal loop of ParseHeader terminates: the
text it returns admits no further pattBrace match (the loop reaches a
fixed point within the fuel bound tied to the input length), and every
round that found a match strictly shortens the text, by at least the two
brace characters of the match. -/
theorem c9_brace_removal_terminates :
    (∀ h : List Char, (braceSubM (braceLoopW h)).2 = false) ∧
    (∀ h : List Char, (braceSubM h).2 = true →
      (braceSubM h).1.length + 2 ≤ h.length) :=
  ⟨fun h => braceLoopF_fix (h.length + 1) h (Nat.lt_succ_self _),
   fun h => (braceSubM_props h).2⟩

/-- Witness for C9: a concrete round that matches and shortens. -/
theorem c9_brace_removal_terminates_witness :
    (braceSubM "a\x7bb\x7dc".data).2 = true ∧
    (braceSubM "a\x7bb\x7dc".data).1.length + 2 ≤ "a\x7bb\x7dc".data.length :=
  ⟨by decide, c9_brace_removal_terminates.2 "a\x7bb\x7dc".data (by decide)⟩

/-! ### Claim C10 -/

theorem str_data_append (a b : String) : (a ++ b).data = a.data ++ b.data := rfl

theorem substr_refl (p : List Char) : SubstrPat p p := ⟨[], [], by simp⟩

theorem substr_trans {p q s : List Char} (h1 : SubstrPat p q) (h2 : SubstrPat q s) :
    SubstrPat p s := by
  obtain ⟨l1, t1, rfl⟩ := h1
  obtain ⟨l2, t2, rfl⟩ := h2
  exact ⟨l2 ++ l1, t1 ++ t2, by simp⟩

theorem substr_append_left {p a : List Char} (h : SubstrPat p a) (b : List Char) :
    SubstrPat p (a ++ b) := by
  obtain ⟨l, t, rfl⟩ := h
  exact ⟨l, t ++ b, by simp⟩

theorem substr_append_right (a : List Char) {p b : List Char} (h : SubstrPat p b) :
    SubstrPat p (a ++ b) := by
  obtain ⟨l, t, rfl⟩ := h
  exact ⟨a ++ l, t, by simp⟩

theorem substr_concatMap {α : Type} (g : α → String) {x : α} :
    ∀ {l : List α}, x ∈ l → SubstrPat (g x).data (concatMap g l).data := by
  intro l
  induction l with
  | nil => intro h; cases h
  | cons y l2 ih =>
    intro h
    show SubstrPat _ (g y ++ concatMap g l2).data
    rw [str_data_append]
    rcases List.mem_cons.mp h with h1 | h1
    · subst h1
      exact substr_append_left (substr_refl _) _
    · exact substr_append_right _ (ih h1)

theorem dictGet_dictInsert : ∀ (d : List (String × List Decl)) (k : String) (v : List Decl),
    dictGet (dictInsert d k v) k = v := by
  intro d
  induction d with
  | nil => intro k v; simp [dictInsert, dictGet]
  | cons p rest ih =>
    intro k v
    obtain ⟨k2, v2⟩ := p
    show dictGet (if k2 = k then (k, v) :: rest else (k2, v2) :: dictInsert rest k v) k = v
    by_cases hk : k2 = k
    · rw [if_pos hk]
      simp [dictGet]
    · rw [if_neg hk]
      show (if k2 = k then v2 else dictGet (dictInsert rest k v) k) = v
      rw [if_neg hk, ih]

/-- C10: the declaration registry is class-level state shared by all
MockCGen instances: the constructor does not touch it, ParseHeader
updates it identically whatever instance it is invoked on, and
declarations registered through one instance appear in the header and
source outputs produced through any other instance (the header contains
the include line for the registered file, and the source contains the
forwarding text of every registered declaration). -/
theorem c10_shared_registry (st : Store) (w1 w2 cn f h : String) (isG : Bool)
    (hne : parseHeaderDecls h ≠ []) :
    (MockCGen.initS st w2).1 = st ∧
    parseHeaderS st (MockCGen.mk w1) f h = parseHeaderS st (MockCGen.mk w2) f h ∧
    f ∈ (parseHeaderS st (MockCGen.mk w1) f h).fileList ∧
    SubstrPat ("#include \"" ++ f ++ "\"\n").data
      (buildMockCHeaderText (parseHeaderS st (MockCGen.mk w1) f h)
        (MockCGen.mk w2) cn isG).data ∧
    (∀ d ∈ parseHeaderDecls h,
      SubstrPat (sourceFuncText cn d).data
        (buildMockCSourceText (parseHeaderS st (MockCGen.mk w1) f h)
          (MockCGen.mk w2) cn).data) := by
  have hie : (parseHeaderDecls h).isEmpty = false := (isEmpty_false_iff _).mpr hne
  have hst : parseHeaderS st (MockCGen.mk w1) f h =
      ⟨st.fileList ++ [f], dictInsert st.fileDict f (parseHeaderDecls h)⟩ := by
    simp [parseHeaderS, hie]
  refine ⟨rfl, rfl, ?_, ?_, ?_⟩
  · rw [hst]
    simp
  · rw [hst]
    unfold buildMockCHeaderText
    refine substr_trans
      (substr_concatMap (fun x => "#include \"" ++ x ++ "\"\n")
        (show f ∈ st.fileList ++ [f] by simp))
      (substr_concatMap id ?_)
    exact List.mem_cons_of_mem _ (List.mem_cons_of_mem _ (List.mem_cons_of_mem _
      (List.mem_cons_of_mem _ (List.mem_cons_of_mem _ (List.mem_cons_of_mem _
      (List.mem_cons_of_mem _ (List.mem_cons_self _ _)))))))
  · intro d hd
    rw [hst]
    unfold buildMockCSourceText
    have hdict : dictGet (dictInsert st.fileDict f (parseHeaderDecls h)) f =
        parseHeaderDecls h := dictGet_dictInsert _ _ _
    have h0 : SubstrPat (sourceFuncText cn d).data
        (concatMap (sourceFuncText cn)
          (dictGet (dictInsert st.fileDict f (parseHeaderDecls h)) f)).data := by
      rw [hdict]
      exact substr_concatMap (sourceFuncText cn) hd
    have hA : SubstrPat (sourceFuncText cn d).data
        (("\n// From " ++ f ++ "\n" ++
          concatMap (sourceFuncText cn)
            (dictGet (dictInsert st.fileDict f (parseHeaderDecls h)) f)).data) := by
      rw [str_data_append]
      exact substr_append_right _ h0
    refine substr_trans
      (substr_trans hA
        (substr_concatMap
          (fun x => "\n// From " ++ x ++ "\n" ++
            concatMap (sourceFuncText cn)
              (dictGet (dictInsert st.fileDict f (parseHeaderDecls h)) x))
          (show f ∈ st.fileList ++ [f] by simp)))
      (substr_concatMap id ?_)
    exact List.mem_cons_of_mem _ (List.mem_cons_of_mem _ (List.mem_cons_of_mem _
      (List.mem_cons_of_mem _ (List.mem_cons_of_mem _ (List.mem_cons_of_mem _
      (List.mem_cons_of_mem _ (List.mem_cons_of_mem _ (List.mem_cons_of_mem _
      (List.mem_cons_of_mem _ (List.mem_cons_of_mem _ (List.mem_cons_of_mem _
      (List.mem_cons_of_mem _ (List.mem_cons_of_mem _
      (List.mem_cons_self _ _))))))))))))))

/-- Witness for C10: a header parsed through one instance is included in
the header text built through a different instance. -/
theorem c10_shared_registry_witness :
    SubstrPat ("#include \"" ++ "a.h" ++ "\"\n").data
      (buildMockCHeaderText (parseHeaderS storeEmpty (MockCGen.mk "W1") "a.h"
          "int f(int a);\n") (MockCGen.mk "W2") "Mock" true).data :=
  (c10_shared_registry storeEmpty "W1" "W2" "Mock" "a.h" "int f(int a);\n" true
    (by decide)).2.2.2.1

/-! ### Claim C4, amended: general per-round lookbehind characterization -/

theorem braceSubF_fuel : ∀ (n m : Nat) (p : Char × Char × Char × Char) (s : List Char),
    s.length < n → s.length < m → braceSubF n p s = braceSubF m p s := by
  intro n
  induction n with
  | zero => intro m p s h _; exact absurd h (Nat.not_lt_zero _)
  | succ n ih =>
    intro m p s hn hm
    match m, s with
    | 0, _ => exact absurd hm (Nat.not_lt_zero _)
    | m + 1, [] => rfl
    | m + 1, c :: rest =>
      have hrn : rest.length < n := by simp only [List.length_cons] at hn; omega
      have hrm : rest.length < m := by simp only [List.length_cons] at hm; omega
      by_cases hb : c = '\x7b' ∧ isCQuoteSp p = false
      · rcases hm2 : takeToCloseBrace rest with _ | ⟨inner, tail⟩
        · have e1 : braceSubF (n + 1) p (c :: rest) =
              (c :: (braceSubF n (pushC p c) rest).1, (braceSubF n (pushC p c) rest).2) := by
            simp [braceSubF, hb, hm2]
          have e2 : braceSubF (m + 1) p (c :: rest) =
              (c :: (braceSubF m (pushC p c) rest).1, (braceSubF m (pushC p c) rest).2) := by
            simp [braceSubF, hb, hm2]
          rw [e1, e2, ih m (pushC p c) rest hrn hrm]
        · have hlen2 := takeToCloseBrace_length rest inner tail hm2
          have htn : tail.length < n := by omega
          have htm : tail.length < m := by omega
          have e1 : braceSubF (n + 1) p (c :: rest) =
              ((braceSubF n (((c :: inner) ++ ['\x7d']).foldl pushC p) tail).1, true) := by
            simp [braceSubF, hb, hm2]
          have e2 : braceSubF (m + 1) p (c :: rest) =
              ((braceSubF m (((c :: inner) ++ ['\x7d']).foldl pushC p) tail).1, true) := by
            simp [braceSubF, hb, hm2]
          rw [e1, e2, ih m (((c :: inner) ++ ['\x7d']).foldl pushC p) tail htn htm]
      · have e1 : braceSubF (n + 1) p (c :: rest) =
            (c :: (braceSubF n (pushC p c) rest).1, (braceSubF n (pushC p c) rest).2) := by
          simp [braceSubF, hb]
        have e2 : braceSubF (m + 1) p (c :: rest) =
            (c :: (braceSubF m (pushC p c) rest).1, (braceSubF m (pushC p c) rest).2) := by
          simp [braceSubF, hb]
        rw [e1, e2, ih m (pushC p c) rest hrn hrm]

theorem braceSubP_passthru : ∀ (u : List Char) (p : Char × Char × Char × Char)
    (s : List Char), '\x7b' ∉ u →
    braceSubP p (u ++ s) =
      (u ++ (braceSubP (u.foldl pushC p) s).1, (braceSubP (u.foldl pushC p) s).2) := by
  intro u
  induction u with
  | nil => intro p s _; exact Prod.mk.eta.symm
  | cons c u2 ih =>
    intro p s hnb
    have hc : ¬(c = '\x7b' ∧ isCQuoteSp p = false) := by
      rintro ⟨h1, _⟩
      exact hnb (by simp [h1])
    have e1 : braceSubP p ((c :: u2) ++ s) =
        (c :: (braceSubF ((u2 ++ s).length + 1) (pushC p c) (u2 ++ s)).1,
         (braceSubF ((u2 ++ s).length + 1) (pushC p c) (u2 ++ s)).2) := by
      show braceSubF (((c :: u2) ++ s).length + 1) p ((c :: u2) ++ s) = _
      rw [show ((c :: u2) ++ s).length + 1 = (u2 ++ s).length + 1 + 1 by simp,
        List.cons_append]
      simp [braceSubF, hc]
    rw [e1,
      show braceSubF ((u2 ++ s).length + 1) (pushC p c) (u2 ++ s) =
        braceSubP (pushC p c) (u2 ++ s) from rfl,
      ih (pushC p c) s (fun h => hnb (List.mem_cons_of_mem _ h))]
    simp

theorem braceSubP_exempt (p : Char × Char × Char × Char) (v : List Char)
    (hq : isCQuoteSp p = true) :
    braceSubP p ('\x7b' :: v) =
      ('\x7b' :: (braceSubP (pushC p '\x7b') v).1, (braceSubP (pushC p '\x7b') v).2) := by
  have e : braceSubF (v.length + 1 + 1) p ('\x7b' :: v) =
      ('\x7b' :: (braceSubF (v.length + 1) (pushC p '\x7b') v).1,
       (braceSubF (v.length + 1) (pushC p '\x7b') v).2) := by
    simp [braceSubF, hq]
  show braceSubF (('\x7b' :: v).length + 1) p ('\x7b' :: v) = _
  rw [show ('\x7b' :: v).length + 1 = v.length + 1 + 1 by simp, e]
  rfl

theorem takeToCloseBrace_complete : ∀ (inner tail : List Char),
    '\x7b' ∉ inner → '\x7d' ∉ inner →
    takeToCloseBrace (inner ++ '\x7d' :: tail) = some (inner, tail) := by
  intro inner
  induction inner with
  | nil =>
    intro tail _ _
    show (if '\x7d' = '\x7d' then some (([] : List Char), tail) else _) = _
    rw [if_pos rfl]
  | cons c inner2 ih =>
    intro tail h1 h2
    have hc1 : c ≠ '\x7d' := fun h => h2 (by simp [h])
    have hc2 : c ≠ '\x7b' := fun h => h1 (by simp [h])
    show (if c = '\x7d' then _ else if c = '\x7b' then none else _) = _
    rw [if_neg hc1, if_neg hc2]
    show Option.map (fun pr => (c :: pr.1, pr.2))
      (takeToCloseBrace (inner2 ++ '\x7d' :: tail)) = _
    rw [ih tail (fun h => h1 (List.mem_cons_of_mem _ h))
      (fun h => h2 (List.mem_cons_of_mem _ h))]
    rfl

theorem braceSubP_delete (p : Char × Char × Char × Char) (inner tail : List Char)
    (hq : isCQuoteSp p = false) (h1 : '\x7b' ∉ inner) (h2 : '\x7d' ∉ inner) :
    braceSubP p ('\x7b' :: (inner ++ '\x7d' :: tail)) =
      ((braceSubP ((('\x7b' :: inner) ++ ['\x7d']).foldl pushC p) tail).1, true) := by
  have htk : takeToCloseBrace (inner ++ '\x7d' :: tail) = some (inner, tail) :=
    takeToCloseBrace_complete inner tail h1 h2
  have hb : '\x7b' = '\x7b' ∧ isCQuoteSp p = false := ⟨rfl, hq⟩
  have e1 : braceSubP p ('\x7b' :: (inner ++ '\x7d' :: tail)) =
      ((braceSubF ((inner ++ '\x7d' :: tail).length + 1)
        ((('\x7b' :: inner) ++ ['\x7d']).foldl pushC p) tail).1, true) := by
    show braceSubF (('\x7b' :: (inner ++ '\x7d' :: tail)).length + 1) p _ = _
    rw [show ('\x7b' :: (inner ++ '\x7d' :: tail)).length + 1 =
      (inner ++ '\x7d' :: tail).length + 1 + 1 by simp]
    simp [braceSubF, hb, htk]
  rw [e1, braceSubF_fuel ((inner ++ '\x7d' :: tail).length + 1) (tail.length + 1) _ tail
    (by simp only [List.length_append, List.length_cons]; omega) (Nat.lt_succ_self _)]
  rfl

theorem foldl_pushC_window : ∀ (u : List Char) (p : Char × Char × Char × Char)
    (c1 c2 c3 c4 : Char), (u ++ [c1, c2, c3, c4]).foldl pushC p = (c1, c2, c3, c4) := by
  intro u
  induction u with
  | nil =>
    intro p c1 c2 c3 c4
    obtain ⟨a, b, c, d⟩ := p
    rfl
  | cons x u2 ih =>
    intro p c1 c2 c3 c4
    rw [List.cons_append, List.foldl_cons]
    exact ih (pushC p x) c1 c2 c3 c4

/-- C4 (amended): brace removal iterates rounds of pattBrace.sub, and in
each round the lookbehind examines that round's current text.  Within a
round (window p tracks the four most recently scanned characters, the
round over a full text starting at the sentinel of braceSubM): the scan
passes over any opening-brace-free prefix unchanged, pushing it into the
window — so after a prefix ending in four given characters the window is
exactly those four; an opening brace reached with window quote-C-quote-
space is exempt and survives the round; an opening brace reached with
any other window and followed by a closing brace before any other brace
character opens a match whose whole span is deleted.  Because rounds
iterate, a span can survive overall even though its opening brace was
not preceded by those four characters in the original text.  In
particular extern "C" with exactly one space before the brace preserves
the block and its declarations are matched, extern "C" with no space is
deleted and its declarations are lost, any other block whose opening
brace is preceded by quote-C-quote-space is preserved as well, and an
ordinary named block is deleted. -/
theorem c4_lookbehind_amended :
    (∀ s : List Char, braceSubM s = braceSubP prevInit s) ∧
    (∀ (p : Char × Char × Char × Char) (c1 c2 c3 c4 : Char) (u : List Char),
      (u ++ [c1, c2, c3, c4]).foldl pushC p = (c1, c2, c3, c4)) ∧
    (∀ (u : List Char) (p : Char × Char × Char × Char) (s : List Char), '\x7b' ∉ u →
      braceSubP p (u ++ s) =
        (u ++ (braceSubP (u.foldl pushC p) s).1, (braceSubP (u.foldl pushC p) s).2)) ∧
    (∀ (p : Char × Char × Char × Char) (v : List Char), isCQuoteSp p = true →
      braceSubP p ('\x7b' :: v) =
        ('\x7b' :: (braceSubP (pushC p '\x7b') v).1, (braceSubP (pushC p '\x7b') v).2)) ∧
    (∀ (p : Char × Char × Char × Char) (inner tail : List Char),
      isCQuoteSp p = false → '\x7b' ∉ inner → '\x7d' ∉ inner →
      braceSubP p ('\x7b' :: (inner ++ '\x7d' :: tail)) =
        ((braceSubP ((('\x7b' :: inner) ++ ['\x7d']).foldl pushC p) tail).1, true)) ∧
    braceLoopW "\"C\"\x7bz\x7d \x7bx\x7by\x7d\x7d".data = "\"C\" \x7bx\x7d".data ∧
    parseHeaderDecls "extern \"C\" \x7b\nint f(int a);\n\x7d\n" =
      [⟨"int ", "f", "int a"⟩] ∧
    parseHeaderDecls "extern \"C\"\x7bint f(int a);\x7d" = [] ∧
    parseHeaderDecls "namespace \"C\" \x7b\nint g(int a);\n\x7d\n" =
      [⟨"int ", "g", "int a"⟩] ∧
    parseHeaderDecls "namespace Foo \x7b\nint h(int a);\n\x7d\n" = [] :=
  ⟨fun _ => rfl,
   fun p c1 c2 c3 c4 u => foldl_pushC_window u p c1 c2 c3 c4,
   braceSubP_passthru,
   braceSubP_exempt,
   braceSubP_delete,
   by decide, by decide, by decide, by decide, by decide⟩

/-- Witness for C4 (amended): the three general per-round conjuncts
exercised on concrete texts — pass-through over the brace-free prefix of
an extern "C" header, survival of an exempt brace, and deletion of a
non-exempt span. -/
theorem c4_lookbehind_amended_witness :
    braceSubP prevInit ("extern \"C\" ".data ++ "\x7bint f(int a);\x7d".data) =
      ("extern \"C\" ".data ++
        (braceSubP ("extern \"C\" ".data.foldl pushC prevInit)
          "\x7bint f(int a);\x7d".data).1,
       (braceSubP ("extern \"C\" ".data.foldl pushC prevInit)
          "\x7bint f(int a);\x7d".data).2) ∧
    braceSubP ('"', 'C', '"', ' ') ('\x7b' :: "x\x7d".data) =
      ('\x7b' :: (braceSubP (pushC ('"', 'C', '"', ' ') '\x7b') "x\x7d".data).1,
       (braceSubP (pushC ('"', 'C', '"', ' ') '\x7b') "x\x7d".data).2) ∧
    braceSubP prevInit ('\x7b' :: ("z".data ++ '\x7d' :: " q".data)) =
      ((braceSubP ((('\x7b' :: "z".data) ++ ['\x7d']).foldl pushC prevInit)
        " q".data).1, true) :=
  ⟨c4_lookbehind_amended.2.2.1 "extern \"C\" ".data prevInit
     "\x7bint f(int a);\x7d".data (by decide),
   c4_lookbehind_amended.2.2.2.1 ('"', 'C', '"', ' ') "x\x7d".data (by decide),
   c4_lookbehind_amended.2.2.2.2.1 prevInit "z".data " q".data
     (by decide) (by decide) (by decide)⟩
